import Mathlib

/-!
Verification of the cascading extraction pipeline in `app.py`
(Self-Healing DOM Scraper).  The Python source is shallowly embedded:
pure helpers become Lean functions on `String`/`List Char`, the JSON-LD
extractor works over an explicit JSON value type with Python's
exception behaviour made explicit, and the Streamlit main loop becomes
a pure pipeline function that records which stages executed and which
success messages were displayed.
-/

namespace Domfie

/-! ## String utilities

`findIdx?` models Python `str.find` (index of the first occurrence of
`needle` in `hay`, `none` for Python's `-1`); `isSubstr` models the
Python `in` operator on strings. -/

def findIdx? (hay needle : List Char) : Option Nat :=
  match hay with
  | [] => if needle.isEmpty then some 0 else none
  | _ :: t =>
    if needle.isPrefixOf hay then some 0
    else (findIdx? t needle).map (· + 1)

def isSubstr (needle hay : String) : Bool :=
  (findIdx? hay.data needle.data).isSome

def lowerL (l : List Char) : List Char := l.map Char.toLower

/-! ## Subject Extractor (`ScraperLogic.extract_subject`)

`re.findall(r'\w+', intent.lower())` is modelled by `tokenize` over the
per-character lowercased input: maximal runs of word characters. -/

def isWordChar (c : Char) : Bool := c.isAlphanum || c == '_'

def tokAux : List Char → List Char → List (List Char)
  | [], acc => if acc.isEmpty then [] else [acc.reverse]
  | c :: cs, acc =>
    if isWordChar c then tokAux cs (c :: acc)
    else if acc.isEmpty then tokAux cs []
    else acc.reverse :: tokAux cs []

def tokenize (l : List Char) : List (List Char) := tokAux l []

def stop_words : List String :=
  ["extract", "find", "get", "the", "a", "an", "of", "value", "text",
   "name", "movie", "page", "webpage", "site"]

def wordsOf (intent : String) : List String :=
  (tokenize (lowerL intent.data)).map (fun t => String.mk t)

def candidatesOf (intent : String) : List String :=
  (wordsOf intent).filter (fun w => ! stop_words.contains w)

def extract_subject (intent : String) : String :=
  match (candidatesOf intent).getLast? with
  | some w => w
  | none =>
    match (wordsOf intent).getLast? with
    | some w => w
    | none => "data"

example : extract_subject "Extract the movie director name" = "director" := by decide
example : extract_subject "Extract the price" = "price" := by decide
example : extract_subject "" = "data" := by decide
example : extract_subject "get the name" = "name" := by decide

/-! ## HTML Context Reducer (`ScraperLogic.smart_clean_html`)

The BeautifulSoup parsing/decomposition steps are abstracted away: the
function receives the serialized `<body>` string (`body_text` in the
source) and the flattened text structure already computed, and performs
the windowing logic of lines 76-85 of `app.py`.  `max(0, idx - 500)`
is computed over `Int` exactly as Python does. -/

def sliceL (s : String) (a b : Nat) : String :=
  String.mk ((s.data.drop a).take (b - a))

def smart_clean_html (bodyText textStructure : String) (kw : Option String) :
    String × String :=
  match kw with
  | some k =>
    if k ≠ "" then
      match findIdx? (lowerL bodyText.data) (lowerL k.data) with
      | some idx =>
        let start : Int := max 0 ((idx : Int) - 500)
        let stop : Nat := min bodyText.data.length (idx + 1500)
        ("..." ++ sliceL bodyText start.toNat stop ++ "...", textStructure)
      | none => (sliceL bodyText 0 4000, textStructure)
    else (sliceL bodyText 0 4000, textStructure)
  | none => (sliceL bodyText 0 4000, textStructure)

example :
    (smart_clean_html "Hello PRICE tag" "txt" (some "price")).1
      = "...Hello PRICE tag..." := by decide
example :
    (smart_clean_html "Hello" "txt" (some "zzz")).1 = "Hello" := by decide

/-! ## Fetch Strategy Selector (`fetch_html`)

Only the strategy decision is modelled (the network/browser calls are
external).  The source computes
`is_hard_target = any(x in url for x in ANTI_BOT_SITES)` — a substring
test against the whole URL string — and uses the stealth branch iff
that holds and Selenium is importable. -/

def ANTI_BOT_SITES : List String :=
  ["stockx.com", "nike.com", "adidas.com", "footlocker.com", "shopify.com"]

def USER_AGENT : String := "Mozilla/5.0 (Macintosh; Intel Mac OS X 10_15_7)"

inductive FetchMode where
  | stealth
  | direct (userAgent : String) (timeoutSeconds : Nat)
deriving DecidableEq

def fetch_decision (url : String) (seleniumAvailable : Bool) : FetchMode :=
  let is_hard_target := ANTI_BOT_SITES.any (fun x => isSubstr x url)
  if is_hard_target && seleniumAvailable then FetchMode.stealth
  else FetchMode.direct USER_AGENT 10

/-- The fetch decision as the spec words it ("the URL's host matches a
configured list of domains"): extract the host component of the URL and
test the configured domains against the host alone.  Used only to
compare the spec's claim with `fetch_decision`. -/
def hostOf (url : String) : String :=
  let rest : List Char :=
    match findIdx? url.data "://".data with
    | some i => url.data.drop (i + 3)
    | none => url.data
  String.mk (rest.takeWhile (fun c => c ≠ '/'))

def fetch_decision_spec (url : String) (seleniumAvailable : Bool) : FetchMode :=
  if ANTI_BOT_SITES.any (fun x => isSubstr x (hostOf url)) && seleniumAvailable then
    FetchMode.stealth
  else FetchMode.direct USER_AGENT 10

example : hostOf "https://www.nike.com/shoes" = "www.nike.com" := by decide
example : fetch_decision "https://www.nike.com/shoes" true = FetchMode.stealth := by decide

/-! ## Structured Data Extractor (`ScraperLogic.parse_json_ld`)

JSON values decoded by `json.loads` are modelled by `JVal` (numbers
carry their Python `str()` rendering).  A script block is
`Option JVal`: `none` when `json.loads` raises (or `script.string` is
`None`), which the source catches with `except: continue`.

Python-level operations that can raise inside the `try` body are
modelled with `Except Unit`; an error anywhere in a block's processing
leaves the record exactly as already mutated (the bare `except` keeps
`data_found`'s partial writes). -/

inductive JVal where
  | null
  | bool (b : Bool)
  | num (render : String)
  | str (s : String)
  | arr (xs : List JVal)
  | obj (fields : List (String × JVal))

/-- Python-dict key lookup for an object decoded by `json.loads`:
duplicate keys in the JSON text make the *last* occurrence win. -/
def jLookup (fs : List (String × JVal)) (k : String) : Option JVal :=
  match fs with
  | [] => none
  | p :: rest =>
    match jLookup rest k with
    | some v => some v
    | none => if p.1 == k then some p.2 else none

mutual

/-- Python `repr` of a decoded JSON value (element rendering used by
`str` on containers; inner-quote escaping is not modelled since no
claim exercises it). -/
def pyRepr : JVal → String
  | JVal.null => "None"
  | JVal.bool true => "True"
  | JVal.bool false => "False"
  | JVal.num r => r
  | JVal.str s => String.mk [Char.ofNat 39] ++ s ++ String.mk [Char.ofNat 39]
  | JVal.arr xs => "[" ++ pyReprList xs ++ "]"
  | JVal.obj fs => "\x7b" ++ pyReprFields fs ++ "\x7d"

def pyReprList : List JVal → String
  | [] => ""
  | [x] => pyRepr x
  | x :: y :: rest => pyRepr x ++ ", " ++ pyReprList (y :: rest)

def pyReprFields : List (String × JVal) → String
  | [] => ""
  | [(k, v)] => pyRepr (JVal.str k) ++ ": " ++ pyRepr v
  | (k, v) :: q :: rest =>
    pyRepr (JVal.str k) ++ ": " ++ pyRepr v ++ ", " ++ pyReprFields (q :: rest)

end

/-- Python `str()` of a decoded JSON value, as used in the f-string on
line 103 of `app.py`: identity on strings, the scalar renderings of
`repr` on other scalars, and `repr`'s container rendering on
containers. -/
def pyStr : JVal → String
  | JVal.str s => s
  | JVal.null => "None"
  | JVal.bool true => "True"
  | JVal.bool false => "False"
  | JVal.num r => r
  | v => pyRepr v

/-- The Python `in` operator `k in data` for a string `k`; raises
(`Except.error`) on non-container values (`TypeError`). -/
def pyIn (k : String) (v : JVal) : Except Unit Bool :=
  match v with
  | JVal.obj fs => Except.ok (fs.any (fun p => p.1 == k))
  | JVal.str s => Except.ok (isSubstr k s)
  | JVal.arr xs =>
    Except.ok (xs.any (fun x => match x with
      | JVal.str s => s == k
      | _ => false))
  | _ => Except.error ()

/-- Python subscription `data[k]` with a string key: key lookup on a
dict (`KeyError` when absent), `TypeError` on anything else. -/
def getItem (v : JVal) (k : String) : Except Unit JVal :=
  match v with
  | JVal.obj fs =>
    match jLookup fs k with
    | some x => Except.ok x
    | none => Except.error ()
  | _ => Except.error ()

/-- Python `x[0]`: first element of a list (`IndexError` when empty),
first character of a string, `TypeError` otherwise. -/
def pyIndex0 (v : JVal) : Except Unit JVal :=
  match v with
  | JVal.arr (x :: _) => Except.ok x
  | JVal.str s =>
    match s.data with
    | [] => Except.error ()
    | c :: _ => Except.ok (JVal.str (String.mk [c]))
  | _ => Except.error ()

/-- Python `offer.get(k, '')`: dict lookup with default `''`;
`AttributeError` on non-dicts. -/
def pyGetAttr (v : JVal) (k : String) : Except Unit JVal :=
  match v with
  | JVal.obj fs => Except.ok ((jLookup fs k).getD (JVal.str ""))
  | _ => Except.error ()

/-- `data_found` in `parse_json_ld`: a dict whose only possible keys
are `name`, `description`, `price`.  `name`/`description` store the raw
decoded value; `price` stores the composed f-string. -/
structure Record where
  name : Option JVal
  description : Option JVal
  price : Option String

def emptyRecord : Record := ⟨none, none, none⟩

/-- The price computed by lines 101-103 of `app.py` for one block, or
`none` when that code path raises or `offers` is absent (in which case
`data_found['price']` is not assigned). -/
def offersPrice (d : JVal) : Option String :=
  match pyIn "offers" d with
  | Except.error _ => none
  | Except.ok false => none
  | Except.ok true =>
    match getItem d "offers" with
    | Except.error _ => none
    | Except.ok offs =>
      let offerE : Except Unit JVal :=
        match offs with
        | JVal.obj fs => Except.ok (JVal.obj fs)
        | other => pyIndex0 other
      match offerE with
      | Except.error _ => none
      | Except.ok offer =>
        match pyGetAttr offer "priceCurrency", pyGetAttr offer "price" with
        | Except.ok vc, Except.ok vp =>
          some (pyStr vc ++ " " ++ pyStr vp)
        | _, _ => none

def applyOffers (d : JVal) (acc : Record) : Record :=
  match offersPrice d with
  | some s => { acc with price := some s }
  | none => acc

/-- Lines 100-103: the `description` assignment followed by the
`offers` processing; an exception leaves the partially mutated record. -/
def afterName (d : JVal) (acc : Record) : Record :=
  match pyIn "description" d with
  | Except.error _ => acc
  | Except.ok true =>
    match getItem d "description" with
    | Except.error _ => acc
    | Except.ok v => applyOffers d { acc with description := some v }
  | Except.ok false => applyOffers d acc

/-- Line 96: `if isinstance(data, list): data = data[0] if data else {}`. -/
def flattenTop (dat : JVal) : JVal :=
  match dat with
  | JVal.arr [] => JVal.obj []
  | JVal.arr (x :: _) => x
  | other => other

/-- The whole `try` body for one script block (lines 95-103): top-level
list flattening, then `name`, `description`, `offers` in order.  Any
raise aborts the rest of the block but keeps earlier writes. -/
def applyBlock (dat : JVal) (acc : Record) : Record :=
  match pyIn "name" (flattenTop dat) with
  | Except.error _ => acc
  | Except.ok true =>
    match getItem (flattenTop dat) "name" with
    | Except.error _ => acc
    | Except.ok v => afterName (flattenTop dat) { acc with name := some v }
  | Except.ok false => afterName (flattenTop dat) acc

/-- One iteration of the `for script in scripts` loop of lines 93-105:
an unparsable block leaves `data_found` unchanged, a parsed one runs
the `try` body. -/
def stepBlock (acc : Record) (s : Option JVal) : Record :=
  match s with
  | none => acc
  | some d => applyBlock d acc

def parse_json_ld (scripts : List (Option JVal)) : Record :=
  scripts.foldl stepBlock emptyRecord

/-- The `name`/`description` contribution a single block makes to the
record: only a block whose (flattened) value is an object with the key
present writes the field; every other shape raises before (or instead
of) the assignment. -/
def objField (k : String) (d : JVal) : Option JVal :=
  match d with
  | JVal.obj fs => jLookup fs k
  | _ => none

def blockField (k : String) (b : Option JVal) : Option JVal :=
  match b with
  | none => none
  | some dat => objField k (flattenTop dat)

/-- The price contribution a single block makes to the record. -/
def blockPrice (b : Option JVal) : Option String :=
  match b with
  | none => none
  | some dat => offersPrice (flattenTop dat)

/-- The value of field `k` after the whole loop, as dictated by
last-wins: the contribution of the latest block that provides the
field (`Option.or` prefers the current block over the accumulator). -/
def lastField (k : String) (bs : List (Option JVal)) : Option JVal :=
  bs.foldl (fun acc b => (blockField k b).or acc) none

def lastPrice (bs : List (Option JVal)) : Option String :=
  bs.foldl (fun acc b => (blockPrice b).or acc) none

example :
    (parse_json_ld
      [some (JVal.obj
        [("name", JVal.str "Book"),
         ("offers", JVal.obj
           [("priceCurrency", JVal.str "GBP"), ("price", JVal.num "24.99")])])]).price
      = some "GBP 24.99" := by rfl

example :
    (parse_json_ld
      [some (JVal.obj
        [("name", JVal.str "X"), ("description", JVal.str "D"),
         ("offers", JVal.arr [])])])
      = ⟨some (JVal.str "X"), some (JVal.str "D"), none⟩ := by rfl

/-! ## Selector validation (lines 239-248 of `app.py`)

`soup.select_one` is an external library call; it is abstracted as a
DOM-query function that may raise (`Except.error`, e.g. a malformed or
`None` selector) or return the first matching element (`Option`).  An
element is represented by the string `element.get_text(strip=True)`
evaluates to. -/

structure Element where
  textStrip : String
deriving DecidableEq

/-- The `try` body of lines 239-246: query the DOM with the candidate
selector; display success iff an element matched and its stripped text
is non-empty.  A `none` candidate models `generate_selector` returning
`None` (`select_one(None)` raises, caught by the bare `except`). -/
def select_validate (sel : Option String)
    (query : String → Except Unit (Option Element)) : Option String :=
  match sel with
  | none => none
  | some s =>
    match query s with
    | Except.error _ => none
    | Except.ok none => none
    | Except.ok (some e) =>
      if e.textStrip.length > 0 then some e.textStrip else none

/-! ## Pipeline Orchestrator (main UI loop, lines 209-259)

The run is modelled after the page fetch succeeded.  External
black-boxes: the parsed page (its JSON-LD blocks, serialized body text,
flattened text structure and DOM query) and the two inference-backend
calls (`generate_selector`, `direct_extraction`), given as oracles.

Control flow notes, faithful to the source:
* the cache stage is simulated and always fails (line 210-215);
* a structured-data hit calls `st.stop()` at top level, which does
  terminate the script — no later stage runs;
* a selector-stage hit calls `st.stop()` *inside* the bare
  `try/except` of lines 239-248.  `st.stop` works by raising an
  exception, so the bare `except:` swallows it and execution continues
  with Strategy B: the text fallback still executes (and can display a
  second success) after the selector success was already displayed. -/

inductive Strategy where
  | cache
  | structuredData
  | selector
  | textFallback
deriving DecidableEq

structure Page where
  scripts : List (Option JVal)
  bodyText : String
  textStructure : String
  query : String → Except Unit (Option Element)

structure Oracle where
  genSelector : String → String → Option String
  directExtract : String → String → Option String

/-- Trace of one run: the stages that executed, in order, and the
success messages displayed (stage, value), in display order. -/
structure RunResult where
  executed : List Strategy
  successes : List (Strategy × String)
deriving DecidableEq

/-- Lines 227-259: the AI healing phase (selector synthesis +
validation, then the text fallback — which, because the `st.stop` of
the selector branch is swallowed by the bare `except`, runs
unconditionally). -/
def healingPhase (pg : Page) (intent subject : String)
    (exec1 : List Strategy) (orc : Oracle) : RunResult :=
  match select_validate
      (orc.genSelector
        (smart_clean_html pg.bodyText pg.textStructure (some subject)).1 intent)
      pg.query with
  | some t =>
    match orc.directExtract
        (sliceL (smart_clean_html pg.bodyText pg.textStructure (some subject)).2 0 4000)
        intent with
    | some v =>
      ⟨exec1 ++ [Strategy.selector, Strategy.textFallback],
       [(Strategy.selector, t), (Strategy.textFallback, v)]⟩
    | none =>
      ⟨exec1 ++ [Strategy.selector, Strategy.textFallback], [(Strategy.selector, t)]⟩
  | none =>
    match orc.directExtract
        (sliceL (smart_clean_html pg.bodyText pg.textStructure (some subject)).2 0 4000)
        intent with
    | some v =>
      ⟨exec1 ++ [Strategy.selector, Strategy.textFallback], [(Strategy.textFallback, v)]⟩
    | none => ⟨exec1 ++ [Strategy.selector, Strategy.textFallback], []⟩

/-- Lines 209-259 of `app.py`, starting after the successful fetch and
parse.  The structured-data gate is the source's
`if 'price' in subject and 'price' in json_data`. -/
def runPipeline (pg : Page) (intent : String) (simulateBreak : Bool)
    (orc : Oracle) : RunResult :=
  match (parse_json_ld pg.scripts).price with
  | some v =>
    if isSubstr "price" (extract_subject intent) then
      ⟨(if simulateBreak then [Strategy.cache] else []) ++ [Strategy.structuredData],
       [(Strategy.structuredData, v)]⟩
    else
      healingPhase pg intent (extract_subject intent)
        ((if simulateBreak then [Strategy.cache] else []) ++ [Strategy.structuredData]) orc
  | none =>
    healingPhase pg intent (extract_subject intent)
      ((if simulateBreak then [Strategy.cache] else []) ++ [Strategy.structuredData]) orc

/-- The StructuredDataCheck stage as the spec words it: success when
the Subject token appears as a substring of some `StructuredRecord`
key name (`name`, `description`, `price`) and that field is present.
Used only to compare the spec's claim with the source's gate. -/
def structured_hit_spec (subject : String) (rec : Record) : Bool :=
  (isSubstr subject "name" && rec.name.isSome) ||
  (isSubstr subject "description" && rec.description.isSome) ||
  (isSubstr subject "price" && rec.price.isSome)

/-! ## Stealth fetch resource discipline (lines 161-172 of `app.py`)

The browser backend is external; what the source controls is the
`try/finally` shape: `driver = uc.Chrome(...)`, then
`try: get; sleep; return page_source  finally: driver.quit()`.
The body's outcome (rendered HTML, or an exception from navigation or
capture) is a parameter; the model records the event trace. -/

inductive BrowserEvent where
  | launch
  | navigate
  | quit
deriving DecidableEq

/-- `try ... finally quit`: the finalizer events run after the body on
every exit path, and the body's outcome (value or exception) is then
propagated unchanged. -/
def tryFinallyQuit (body : Except String String × List BrowserEvent) :
    Except String String × List BrowserEvent :=
  (body.1, body.2 ++ [BrowserEvent.quit])

/-- The stealth branch of `fetch_html` after a successful
`uc.Chrome(...)` launch: navigation/capture either yields the page
source or raises. -/
def stealth_fetch (nav : Except String String) :
    Except String String × List BrowserEvent :=
  tryFinallyQuit
    (match nav with
     | Except.ok html => (Except.ok html, [BrowserEvent.launch, BrowserEvent.navigate])
     | Except.error e => (Except.error e, [BrowserEvent.launch, BrowserEvent.navigate]))

/-! ## Helper lemmas -/

theorem toNat_ofNat_valid {n : Nat} (h : n.isValidChar) :
    (Char.ofNat n).toNat = n := by
  unfold Char.ofNat
  rw [dif_pos h]
  rfl

theorem toLower_toLower (c : Char) : c.toLower.toLower = c.toLower := by
  unfold Char.toLower
  by_cases h : 65 ≤ c.toNat ∧ c.toNat ≤ 90
  · rw [if_pos h]
    have hv : (Char.ofNat (c.toNat + 32)).toNat = c.toNat + 32 :=
      toNat_ofNat_valid (Or.inl (by omega))
    rw [hv, if_neg (by omega)]
  · rw [if_neg h, if_neg h]

theorem tokAux_ne_nil :
    ∀ (l acc : List Char) (t : List Char), t ∈ tokAux l acc → t ≠ [] := by
  intro l
  induction l with
  | nil =>
    intro acc t ht
    by_cases ha : acc.isEmpty
    · simp [tokAux, ha] at ht
    · simp [tokAux, ha] at ht
      subst ht
      simp [List.isEmpty_iff] at ha
      simpa using ha
  | cons c cs ih =>
    intro acc t ht
    by_cases hw : isWordChar c
    · exact ih (c :: acc) t (by simpa [tokAux, hw] using ht)
    · by_cases ha : acc.isEmpty
      · exact ih [] t (by simpa [tokAux, hw, ha] using ht)
      · simp only [tokAux, hw, if_false, ha] at ht
        rcases List.mem_cons.1 ht with h1 | h2
        · subst h1
          simp [List.isEmpty_iff] at ha
          simpa using ha
        · exact ih [] t h2

theorem tokAux_chars :
    ∀ (l acc : List Char) (t : List Char), t ∈ tokAux l acc →
      ∀ c ∈ t, c ∈ l ∨ c ∈ acc := by
  intro l
  induction l with
  | nil =>
    intro acc t ht c hc
    by_cases ha : acc.isEmpty
    · simp [tokAux, ha] at ht
    · simp [tokAux, ha] at ht
      subst ht
      exact Or.inr (List.mem_reverse.1 hc)
  | cons a cs ih =>
    intro acc t ht c hc
    by_cases hw : isWordChar a
    · rcases ih (a :: acc) t (by simpa [tokAux, hw] using ht) c hc with h | h
      · exact Or.inl (List.mem_cons_of_mem a h)
      · rcases List.mem_cons.1 h with h1 | h2
        · exact Or.inl (by simp [h1])
        · exact Or.inr h2
    · by_cases ha : acc.isEmpty
      · rcases ih [] t (by simpa [tokAux, hw, ha] using ht) c hc with h | h
        · exact Or.inl (List.mem_cons_of_mem a h)
        · simp at h
      · simp only [tokAux, hw, if_false, ha] at ht
        rcases List.mem_cons.1 ht with h1 | h2
        · subst h1
          exact Or.inr (List.mem_reverse.1 hc)
        · rcases ih [] t h2 c hc with h | h
          · exact Or.inl (List.mem_cons_of_mem a h)
          · simp at h

theorem tokenize_ne_nil {l t : List Char} (h : t ∈ tokenize l) : t ≠ [] :=
  tokAux_ne_nil l [] t h

theorem tokenize_chars {l t : List Char} (h : t ∈ tokenize l) :
    ∀ c ∈ t, c ∈ l := by
  intro c hc
  rcases tokAux_chars l [] t h c hc with h1 | h1
  · exact h1
  · simp at h1

theorem mk_ne_empty {t : List Char} (h : t ≠ []) : String.mk t ≠ "" := by
  intro he
  exact h (congrArg String.data he)

theorem any_key_of_jLookup {k : String} :
    ∀ {fs : List (String × JVal)} {v : JVal},
      jLookup fs k = some v → fs.any (fun p => p.1 == k) = true := by
  intro fs
  induction fs with
  | nil => intro v h; simp [jLookup] at h
  | cons p rest ih =>
    intro v h
    rw [jLookup] at h
    rw [List.any_cons]
    cases hr : jLookup rest k with
    | some w =>
      rw [ih hr, Bool.or_true]
    | none =>
      rw [hr] at h
      by_cases hk : p.1 == k
      · rw [hk, Bool.true_or]
      · rw [if_neg hk] at h
        exact absurd h (by simp)

theorem jLookup_isSome_of_any {fs : List (String × JVal)} {k : String}
    (h : fs.any (fun p => p.1 == k) = true) : (jLookup fs k).isSome = true := by
  induction fs with
  | nil => simp at h
  | cons p rest ih =>
    rw [jLookup]
    cases hr : jLookup rest k with
    | some w => simp
    | none =>
      rw [List.any_cons] at h
      cases hp : (p.1 == k) with
      | true => simp [hp]
      | false =>
        rw [hp] at h
        simp only [Bool.false_or] at h
        have := ih h
        rw [hr] at this
        simp at this

theorem applyOffers_price (d : JVal) (acc : Record) :
    (applyOffers d acc).price = (offersPrice d).or acc.price := by
  unfold applyOffers
  cases offersPrice d <;> simp [Option.or]

theorem applyOffers_name (d : JVal) (acc : Record) :
    (applyOffers d acc).name = acc.name := by
  unfold applyOffers
  cases offersPrice d <;> simp

theorem applyOffers_description (d : JVal) (acc : Record) :
    (applyOffers d acc).description = acc.description := by
  unfold applyOffers
  cases offersPrice d <;> simp

theorem afterName_name (d : JVal) (acc : Record) :
    (afterName d acc).name = acc.name := by
  unfold afterName
  cases hin : pyIn "description" d with
  | error e => rfl
  | ok b =>
    cases b with
    | false => exact applyOffers_name d acc
    | true =>
      cases hget : getItem d "description" with
      | error e => rfl
      | ok v => exact applyOffers_name d _

theorem afterName_price (d : JVal) (acc : Record) :
    (afterName d acc).price = (offersPrice d).or acc.price := by
  unfold afterName
  cases d with
  | obj fs =>
    cases hin : pyIn "description" (JVal.obj fs) with
    | error e => simp [pyIn] at hin
    | ok b =>
      cases b with
      | false => exact applyOffers_price _ acc
      | true =>
        have hany : fs.any (fun p => p.1 == "description") = true := by
          simpa [pyIn] using hin
        have hsome := jLookup_isSome_of_any hany
        cases hlk : jLookup fs "description" with
        | none => rw [hlk] at hsome; simp at hsome
        | some v =>
          rw [getItem, hlk]
          exact applyOffers_price _ _
  | null =>
    have : offersPrice JVal.null = none := rfl
    simp [pyIn, this, Option.or]
  | bool b =>
    have : offersPrice (JVal.bool b) = none := rfl
    simp [pyIn, this, Option.or]
  | num r =>
    have : offersPrice (JVal.num r) = none := rfl
    simp [pyIn, this, Option.or]
  | str s =>
    cases hin : pyIn "description" (JVal.str s) with
    | error e => simp [pyIn] at hin
    | ok b =>
      cases b with
      | false => exact applyOffers_price _ acc
      | true =>
        rw [show getItem (JVal.str s) "description" = Except.error () from rfl]
        have hop : offersPrice (JVal.str s) = none := by
          unfold offersPrice
          rw [show pyIn "offers" (JVal.str s) = Except.ok (isSubstr "offers" s) from rfl]
          cases h : isSubstr "offers" s <;>
            simp [show getItem (JVal.str s) "offers" = Except.error () from rfl]
        simp [hop]
  | arr xs =>
    cases hin : pyIn "description" (JVal.arr xs) with
    | error e => simp [pyIn] at hin
    | ok b =>
      cases b with
      | false => exact applyOffers_price _ acc
      | true =>
        rw [show getItem (JVal.arr xs) "description" = Except.error () from rfl]
        have hop : offersPrice (JVal.arr xs) = none := by
          unfold offersPrice
          rw [pyIn]
          cases h : xs.any _ <;>
            simp [show getItem (JVal.arr xs) "offers" = Except.error () from rfl]
        simp [hop]

theorem offersPrice_str (s : String) : offersPrice (JVal.str s) = none := by
  unfold offersPrice
  rw [show pyIn "offers" (JVal.str s) = Except.ok (isSubstr "offers" s) from rfl]
  cases h : isSubstr "offers" s <;>
    simp [show getItem (JVal.str s) "offers" = Except.error () from rfl]

theorem offersPrice_arrv (xs : List JVal) : offersPrice (JVal.arr xs) = none := by
  unfold offersPrice
  rw [pyIn]
  cases h : xs.any _ <;>
    simp [show getItem (JVal.arr xs) "offers" = Except.error () from rfl]

theorem applyBlock_price (dat : JVal) (acc : Record) :
    (applyBlock dat acc).price = (offersPrice (flattenTop dat)).or acc.price := by
  unfold applyBlock
  cases hd : flattenTop dat with
  | null => simp [pyIn, show offersPrice JVal.null = none from rfl]
  | bool b => simp [pyIn, show offersPrice (JVal.bool b) = none from rfl]
  | num r => simp [pyIn, show offersPrice (JVal.num r) = none from rfl]
  | str s =>
    rw [show pyIn "name" (JVal.str s) = Except.ok (isSubstr "name" s) from rfl]
    cases h : isSubstr "name" s
    · exact afterName_price _ acc
    · simp only [show getItem (JVal.str s) "name" = Except.error () from rfl]
      simp [offersPrice_str]
  | arr xs =>
    rw [show pyIn "name" (JVal.arr xs)
        = Except.ok (xs.any (fun x => match x with
            | JVal.str s => s == "name"
            | _ => false)) from rfl]
    cases h : xs.any _
    · exact afterName_price _ acc
    · simp only [show getItem (JVal.arr xs) "name" = Except.error () from rfl]
      simp [offersPrice_arrv]
  | obj fs =>
    rw [show pyIn "name" (JVal.obj fs)
        = Except.ok (fs.any (fun p => p.1 == "name")) from rfl]
    cases h : fs.any (fun p => p.1 == "name")
    · exact afterName_price _ acc
    · have hsome := jLookup_isSome_of_any h
      cases hlk : jLookup fs "name" with
      | none => rw [hlk] at hsome; simp at hsome
      | some v =>
        simp only [getItem, hlk]
        exact afterName_price _ _

theorem afterName_description_set {fs : List (String × JVal)} {v : JVal}
    (acc : Record) (h : jLookup fs "description" = some v) :
    (afterName (JVal.obj fs) acc).description = some v := by
  unfold afterName
  rw [show pyIn "description" (JVal.obj fs)
      = Except.ok (fs.any (fun p => p.1 == "description")) from rfl]
  rw [any_key_of_jLookup h]
  simp only [getItem, h]
  rw [applyOffers_description]

theorem applyBlock_name_set {fs : List (String × JVal)} {v : JVal}
    (acc : Record) (h : jLookup fs "name" = some v) :
    (applyBlock (JVal.obj fs) acc).name = some v := by
  unfold applyBlock
  rw [show flattenTop (JVal.obj fs) = JVal.obj fs from rfl]
  rw [show pyIn "name" (JVal.obj fs)
      = Except.ok (fs.any (fun p => p.1 == "name")) from rfl]
  rw [any_key_of_jLookup h]
  simp only [getItem, h]
  rw [afterName_name]

theorem applyBlock_description_set {fs : List (String × JVal)} {v : JVal}
    (acc : Record) (h : jLookup fs "description" = some v) :
    (applyBlock (JVal.obj fs) acc).description = some v := by
  unfold applyBlock
  rw [show flattenTop (JVal.obj fs) = JVal.obj fs from rfl]
  rw [show pyIn "name" (JVal.obj fs)
      = Except.ok (fs.any (fun p => p.1 == "name")) from rfl]
  cases hn : fs.any (fun p => p.1 == "name")
  · exact afterName_description_set acc h
  · have hsome := jLookup_isSome_of_any hn
    cases hlk : jLookup fs "name" with
    | none => rw [hlk] at hsome; simp at hsome
    | some w =>
      simp only [getItem, hlk]
      exact afterName_description_set _ h

theorem parse_json_ld_append (bs : List (Option JVal)) (d : JVal) :
    parse_json_ld (bs ++ [some d]) = applyBlock d (parse_json_ld bs) := by
  unfold parse_json_ld
  rw [List.foldl_append]
  rfl

theorem offersPrice_obj_hit {fs ofs : List (String × JVal)} {off : JVal}
    (hoff : jLookup fs "offers" = some off)
    (hform : off = JVal.obj ofs ∨ ∃ rest, off = JVal.arr (JVal.obj ofs :: rest)) :
    offersPrice (JVal.obj fs)
      = some (pyStr ((jLookup ofs "priceCurrency").getD (JVal.str "")) ++ " "
          ++ pyStr ((jLookup ofs "price").getD (JVal.str ""))) := by
  unfold offersPrice
  rw [show pyIn "offers" (JVal.obj fs)
      = Except.ok (fs.any (fun p => p.1 == "offers")) from rfl]
  rw [any_key_of_jLookup hoff]
  simp only [getItem, hoff]
  rcases hform with h1 | ⟨rest, h2⟩
  · subst h1
    simp only [pyGetAttr]
  · subst h2
    simp only [pyIndex0, pyGetAttr]
theorem jLookup_eq_none_of_any_false {fs : List (String × JVal)} {k : String}
    (h : fs.any (fun p => p.1 == k) = false) : jLookup fs k = none := by
  cases hl : jLookup fs k with
  | none => rfl
  | some v =>
    rw [any_key_of_jLookup hl] at h
    exact absurd h (by simp)

theorem afterName_description (d : JVal) (acc : Record) :
    (afterName d acc).description = (objField "description" d).or acc.description := by
  unfold afterName
  cases d with
  | null => simp [pyIn, objField]
  | bool b => simp [pyIn, objField]
  | num r => simp [pyIn, objField]
  | str s =>
    rw [show pyIn "description" (JVal.str s)
        = Except.ok (isSubstr "description" s) from rfl]
    cases h : isSubstr "description" s
    · rw [applyOffers_description]
      simp [objField]
    · rw [show getItem (JVal.str s) "description" = Except.error () from rfl]
      simp [objField]
  | arr xs =>
    rw [show pyIn "description" (JVal.arr xs)
        = Except.ok (xs.any (fun x => match x with
            | JVal.str s => s == "description"
            | _ => false)) from rfl]
    cases h : xs.any _
    · rw [applyOffers_description]
      simp [objField]
    · rw [show getItem (JVal.arr xs) "description" = Except.error () from rfl]
      simp [objField]
  | obj fs =>
    rw [show pyIn "description" (JVal.obj fs)
        = Except.ok (fs.any (fun p => p.1 == "description")) from rfl]
    cases h : fs.any (fun p => p.1 == "description")
    · rw [applyOffers_description]
      simp [objField, jLookup_eq_none_of_any_false h]
    · have hsome := jLookup_isSome_of_any h
      cases hlk : jLookup fs "description" with
      | none => rw [hlk] at hsome; simp at hsome
      | some v =>
        simp only [getItem, hlk]
        rw [applyOffers_description]
        simp [objField, hlk]

theorem applyBlock_name (dat : JVal) (acc : Record) :
    (applyBlock dat acc).name = (objField "name" (flattenTop dat)).or acc.name := by
  unfold applyBlock
  cases hd : flattenTop dat with
  | null => simp [pyIn, objField]
  | bool b => simp [pyIn, objField]
  | num r => simp [pyIn, objField]
  | str s =>
    rw [show pyIn "name" (JVal.str s) = Except.ok (isSubstr "name" s) from rfl]
    cases h : isSubstr "name" s
    · rw [afterName_name]
      simp [objField]
    · rw [show getItem (JVal.str s) "name" = Except.error () from rfl]
      simp [objField]
  | arr xs =>
    rw [show pyIn "name" (JVal.arr xs)
        = Except.ok (xs.any (fun x => match x with
            | JVal.str s => s == "name"
            | _ => false)) from rfl]
    cases h : xs.any _
    · rw [afterName_name]
      simp [objField]
    · rw [show getItem (JVal.arr xs) "name" = Except.error () from rfl]
      simp [objField]
  | obj fs =>
    rw [show pyIn "name" (JVal.obj fs)
        = Except.ok (fs.any (fun p => p.1 == "name")) from rfl]
    cases h : fs.any (fun p => p.1 == "name")
    · rw [afterName_name]
      simp [objField, jLookup_eq_none_of_any_false h]
    · have hsome := jLookup_isSome_of_any h
      cases hlk : jLookup fs "name" with
      | none => rw [hlk] at hsome; simp at hsome
      | some v =>
        simp only [getItem, hlk]
        rw [afterName_name]
        simp [objField, hlk]

theorem applyBlock_description (dat : JVal) (acc : Record) :
    (applyBlock dat acc).description
      = (objField "description" (flattenTop dat)).or acc.description := by
  unfold applyBlock
  cases hd : flattenTop dat with
  | null => simp [pyIn, objField]
  | bool b => simp [pyIn, objField]
  | num r => simp [pyIn, objField]
  | str s =>
    rw [show pyIn "name" (JVal.str s) = Except.ok (isSubstr "name" s) from rfl]
    cases h : isSubstr "name" s
    · rw [afterName_description]
    · rw [show getItem (JVal.str s) "name" = Except.error () from rfl]
      simp [objField]
  | arr xs =>
    rw [show pyIn "name" (JVal.arr xs)
        = Except.ok (xs.any (fun x => match x with
            | JVal.str s => s == "name"
            | _ => false)) from rfl]
    cases h : xs.any _
    · rw [afterName_description]
    · rw [show getItem (JVal.arr xs) "name" = Except.error () from rfl]
      simp [objField]
  | obj fs =>
    rw [show pyIn "name" (JVal.obj fs)
        = Except.ok (fs.any (fun p => p.1 == "name")) from rfl]
    cases h : fs.any (fun p => p.1 == "name")
    · exact afterName_description _ acc
    · have hsome := jLookup_isSome_of_any h
      cases hlk : jLookup fs "name" with
      | none => rw [hlk] at hsome; simp at hsome
      | some v =>
        simp only [getItem, hlk]
        exact afterName_description _ _

theorem stepBlock_name (acc : Record) (b : Option JVal) :
    (stepBlock acc b).name = (blockField "name" b).or acc.name := by
  cases b with
  | none => simp [stepBlock, blockField]
  | some dat =>
    rw [show stepBlock acc (some dat) = applyBlock dat acc from rfl]
    rw [applyBlock_name]
    rfl

theorem stepBlock_description (acc : Record) (b : Option JVal) :
    (stepBlock acc b).description = (blockField "description" b).or acc.description := by
  cases b with
  | none => simp [stepBlock, blockField]
  | some dat =>
    rw [show stepBlock acc (some dat) = applyBlock dat acc from rfl]
    rw [applyBlock_description]
    rfl

theorem stepBlock_price (acc : Record) (b : Option JVal) :
    (stepBlock acc b).price = (blockPrice b).or acc.price := by
  cases b with
  | none => simp [stepBlock, blockPrice]
  | some dat =>
    rw [show stepBlock acc (some dat) = applyBlock dat acc from rfl]
    rw [applyBlock_price]
    rfl

theorem foldl_or_shift {α β : Type} (f : β → Option α) :
    ∀ (bs : List β) (a : Option α),
      bs.foldl (fun acc b => (f b).or acc) a
        = (bs.foldl (fun acc b => (f b).or acc) none).or a := by
  intro bs
  induction bs with
  | nil => intro a; simp
  | cons b rest ih =>
    intro a
    simp only [List.foldl_cons]
    rw [ih ((f b).or a), ih ((f b).or none)]
    rw [Option.or_none, Option.or_assoc]

theorem foldl_proj_or {β : Type} (proj : Record → Option β)
    (f : Option JVal → Option β)
    (hstep : ∀ acc b, proj (stepBlock acc b) = (f b).or (proj acc)) :
    ∀ (bs : List (Option JVal)) (acc : Record),
      proj (bs.foldl stepBlock acc)
        = (bs.foldl (fun a b => (f b).or a) none).or (proj acc) := by
  intro bs
  induction bs with
  | nil => intro acc; simp
  | cons b rest ih =>
    intro acc
    simp only [List.foldl_cons]
    rw [ih (stepBlock acc b), hstep acc b]
    rw [foldl_or_shift f rest ((f b).or none)]
    rw [Option.or_none, Option.or_assoc]

theorem lastWins_skip {α β : Type} (f : β → Option α) :
    ∀ (bs : List β), (∀ x ∈ bs, f x = none) →
      ∀ a : Option α, bs.foldl (fun acc b => (f b).or acc) a = a := by
  intro bs
  induction bs with
  | nil => intro _ a; rfl
  | cons b rest ih =>
    intro h a
    simp only [List.foldl_cons]
    rw [h b (by simp), Option.none_or]
    exact ih (fun x hx => h x (by simp [hx])) a

theorem parse_name_eq (bs : List (Option JVal)) :
    (parse_json_ld bs).name = lastField "name" bs := by
  unfold parse_json_ld lastField
  rw [foldl_proj_or (fun r => r.name) (blockField "name") stepBlock_name bs emptyRecord]
  simp [emptyRecord]

theorem parse_description_eq (bs : List (Option JVal)) :
    (parse_json_ld bs).description = lastField "description" bs := by
  unfold parse_json_ld lastField
  rw [foldl_proj_or (fun r => r.description) (blockField "description")
    stepBlock_description bs emptyRecord]
  simp [emptyRecord]

theorem parse_price_eq (bs : List (Option JVal)) :
    (parse_json_ld bs).price = lastPrice bs := by
  unfold parse_json_ld lastPrice
  rw [foldl_proj_or (fun r => r.price) blockPrice stepBlock_price bs emptyRecord]
  simp [emptyRecord]

theorem lastField_last_provider (k : String) (bs1 bs2 : List (Option JVal))
    (b : Option JVal) (hskip : ∀ x ∈ bs2, blockField k x = none) {v : JVal}
    (hb : blockField k b = some v) :
    lastField k (bs1 ++ b :: bs2) = some v := by
  unfold lastField
  rw [List.foldl_append, List.foldl_cons]
  rw [lastWins_skip (blockField k) bs2 hskip]
  rw [hb]
  rfl

theorem lastPrice_last_provider (bs1 bs2 : List (Option JVal))
    (b : Option JVal) (hskip : ∀ x ∈ bs2, blockPrice x = none) {s : String}
    (hb : blockPrice b = some s) :
    lastPrice (bs1 ++ b :: bs2) = some s := by
  unfold lastPrice
  rw [List.foldl_append, List.foldl_cons]
  rw [lastWins_skip blockPrice bs2 hskip]
  rw [hb]
  rfl

theorem wordsOf_mem_ne {intent w : String} (h : w ∈ wordsOf intent) : w ≠ "" := by
  rcases List.mem_map.1 h with ⟨t, ht, rfl⟩
  exact mk_ne_empty (tokenize_ne_nil ht)

theorem wordsOf_mem_lower {intent w : String} (h : w ∈ wordsOf intent) :
    w.data.map Char.toLower = w.data := by
  rcases List.mem_map.1 h with ⟨t, ht, rfl⟩
  show t.map Char.toLower = t
  have hall : ∀ c ∈ t, Char.toLower c = c := by
    intro c hc
    have hcl : c ∈ lowerL intent.data := tokenize_chars ht c hc
    rcases List.mem_map.1 hcl with ⟨x, _, rfl⟩
    exact toLower_toLower x
  calc t.map Char.toLower = t.map id := List.map_congr_left hall
    _ = t := List.map_id t

theorem extract_subject_cases (intent : String) :
    extract_subject intent ∈ wordsOf intent ∨ extract_subject intent = "data" := by
  unfold extract_subject
  cases hc : (candidatesOf intent).getLast? with
  | some w =>
    left
    rcases List.getLast?_eq_some_iff.1 hc with ⟨ys, hys⟩
    have hw : w ∈ candidatesOf intent := by rw [hys]; simp
    unfold candidatesOf at hw
    exact List.mem_of_mem_filter hw
  | none =>
    cases hn : (wordsOf intent).getLast? with
    | some w =>
      left
      rcases List.getLast?_eq_some_iff.1 hn with ⟨ys, hys⟩
      rw [hys]; simp
    | none => right; rfl

/-! ## Claim theorems -/

/-- Claim C8 (confirmed): for every Intent string the Subject Extractor
returns a non-empty, lowercase-fixed token; it is the last candidate
token surviving the stop-word filter, else the last raw word-token,
else the literal fallback token when the Intent yields no word-tokens. -/
theorem c8_subject_extractor (intent : String) :
    extract_subject intent ≠ "" ∧
    (extract_subject intent).data.map Char.toLower = (extract_subject intent).data ∧
    (∀ w, (candidatesOf intent).getLast? = some w → extract_subject intent = w) ∧
    (candidatesOf intent = [] →
      ∀ w, (wordsOf intent).getLast? = some w → extract_subject intent = w) ∧
    (wordsOf intent = [] → extract_subject intent = "data") := by
  refine ⟨?_, ?_, ?_, ?_, ?_⟩
  · rcases extract_subject_cases intent with h | h
    · exact wordsOf_mem_ne h
    · rw [h]; decide
  · rcases extract_subject_cases intent with h | h
    · exact wordsOf_mem_lower h
    · rw [h]; decide
  · intro w hw
    unfold extract_subject
    rw [hw]
  · intro hc w hw
    unfold extract_subject
    rw [hc]
    simp only [List.getLast?_nil]
    rw [hw]
  · intro hw
    have hc : candidatesOf intent = [] := by
      unfold candidatesOf
      rw [hw]
      rfl
    unfold extract_subject
    rw [hc, hw]
    rfl

/-- Witness for C8 at a concrete Intent. -/
theorem c8_subject_extractor_witness :
    extract_subject "Extract the price" = "price" :=
  (c8_subject_extractor "Extract the price").2.2.1 "price" (by decide)

/-- Claim C7 (confirmed): when a case-insensitive match of the keyword
is found at index `idx`, the HTML Context Reducer returns the window of
the serialized body from `max 0 (idx - 500)` to
`min length (idx + 1500)` wrapped in ellipses; a match at document
start clips the leading context to index 0; no match (or no keyword)
yields the first 4000 characters. -/
theorem c7_context_window (body textS kw : String) (idx : Nat) (hk : kw ≠ "") :
    (findIdx? (lowerL body.data) (lowerL kw.data) = some idx →
      (smart_clean_html body textS (some kw)).1
        = "..." ++ sliceL body (max 0 ((idx : Int) - 500)).toNat
            (min body.data.length (idx + 1500)) ++ "...") ∧
    (findIdx? (lowerL body.data) (lowerL kw.data) = some 0 →
      (smart_clean_html body textS (some kw)).1
        = "..." ++ sliceL body 0 (min body.data.length 1500) ++ "...") ∧
    (findIdx? (lowerL body.data) (lowerL kw.data) = none →
      (smart_clean_html body textS (some kw)).1 = sliceL body 0 4000) ∧
    (smart_clean_html body textS none).1 = sliceL body 0 4000 := by
  refine ⟨?_, ?_, ?_, rfl⟩
  · intro h
    simp [smart_clean_html, hk, h]
  · intro h
    simp [smart_clean_html, hk, h]
  · intro h
    simp [smart_clean_html, hk, h]

/-- Witness for C7: keyword match at document start (case-insensitive),
exercising the leading-context clip. -/
theorem c7_context_window_witness :
    (smart_clean_html "Price: 5" "t" (some "PRICE")).1
      = "..." ++ sliceL "Price: 5" 0 (min ("Price: 5" : String).data.length 1500) ++ "..." :=
  (c7_context_window "Price: 5" "t" "PRICE" 0 (by decide)).2.1 (by decide)

def c10Block : JVal :=
  JVal.obj [("name", JVal.str "Widget"), ("description", JVal.str "A widget"),
            ("offers", JVal.arr [])]

/-- Claim C10 (confirmed): a block that parses as JSON but raises while
its `offers` field is processed (here: `offers` is the empty list, so
indexing its first element raises IndexError) keeps the `name` and
`description` values it already wrote; the record is not rolled back. -/
theorem c10_partial_writes_kept :
    pyIndex0 (JVal.arr []) = Except.error () ∧
    (parse_json_ld [some c10Block]).name = some (JVal.str "Widget") ∧
    (parse_json_ld [some c10Block]).description = some (JVal.str "A widget") ∧
    (parse_json_ld [some c10Block]).price = none := by
  refine ⟨rfl, by rfl, by rfl, by rfl⟩

def c2BlockA : Option JVal := some (JVal.obj [("name", JVal.str "First")])
def c2BlockB : Option JVal := some (JVal.obj [("name", JVal.str "Second")])

/-- Counterexample to claim C2: the first block sets `name` to
`"First"`, but after a second block also carrying `name` the record
holds `"Second"` — the later block overwrote the field, refuting
first-wins. -/
theorem c2_counterexample :
    (parse_json_ld [c2BlockA]).name = some (JVal.str "First") ∧
    (parse_json_ld [c2BlockA, c2BlockB]).name = some (JVal.str "Second") ∧
    JVal.str "Second" ≠ JVal.str "First" := by
  refine ⟨by rfl, by rfl, ?_⟩
  intro h
  have h2 : "Second" = "First" := by injection h
  exact absurd h2 (by decide)

/-- Claim C2 as amended (last-wins): for every block list, each of the
fields `name`, `description` and `price` equals the contribution of the
latest block that provides that field (`lastField`/`lastPrice`, where
`Option.or` prefers the current block over everything accumulated
before it); in particular, for each of the three fields, whenever a
block providing the field is followed only by blocks that do not
provide it, the record holds that block's value — a later providing
block always overwrites earlier ones. -/
theorem c2_amended :
    (∀ bs : List (Option JVal),
      (parse_json_ld bs).name = lastField "name" bs ∧
      (parse_json_ld bs).description = lastField "description" bs ∧
      (parse_json_ld bs).price = lastPrice bs) ∧
    (∀ (bs1 bs2 : List (Option JVal)) (b : Option JVal),
      (∀ x ∈ bs2, blockField "name" x = none) →
      ∀ v : JVal, blockField "name" b = some v →
        (parse_json_ld (bs1 ++ b :: bs2)).name = some v) ∧
    (∀ (bs1 bs2 : List (Option JVal)) (b : Option JVal),
      (∀ x ∈ bs2, blockField "description" x = none) →
      ∀ w : JVal, blockField "description" b = some w →
        (parse_json_ld (bs1 ++ b :: bs2)).description = some w) ∧
    (∀ (bs1 bs2 : List (Option JVal)) (b : Option JVal),
      (∀ x ∈ bs2, blockPrice x = none) →
      ∀ s : String, blockPrice b = some s →
        (parse_json_ld (bs1 ++ b :: bs2)).price = some s) := by
  refine ⟨?_, ?_, ?_, ?_⟩
  · intro bs
    exact ⟨parse_name_eq bs, parse_description_eq bs, parse_price_eq bs⟩
  · intro bs1 bs2 b hskip v hb
    rw [parse_name_eq]
    exact lastField_last_provider "name" bs1 bs2 b hskip hb
  · intro bs1 bs2 b hskip w hb
    rw [parse_description_eq]
    exact lastField_last_provider "description" bs1 bs2 b hskip hb
  · intro bs1 bs2 b hskip s hb
    rw [parse_price_eq]
    exact lastPrice_last_provider bs1 bs2 b hskip hb

/-- Witness for the amended C2 at a concrete pair of blocks: the second
block provides `name` and its value overwrites the first block's. -/
theorem c2_amended_witness :
    (parse_json_ld ([c2BlockA] ++ some (JVal.obj [("name", JVal.str "Second")]) :: [])).name
      = some (JVal.str "Second") :=
  c2_amended.2.1 [c2BlockA] [] (some (JVal.obj [("name", JVal.str "Second")]))
    (fun x hx => absurd hx (List.not_mem_nil x)) (JVal.str "Second") rfl

def c4OfferFields : List (String × JVal) :=
  [("priceCurrency", JVal.str "GBP"), ("price", JVal.str "24.99")]

def c4Fields : List (String × JVal) :=
  [("offers", JVal.obj c4OfferFields)]

/-- Claim C4 (confirmed): a well-formed block whose `offers` object (or
the first element of an `offers` array) carries string `priceCurrency`
and `price` sub-fields yields the price `"<priceCurrency> <price>"`
exactly; a missing `priceCurrency` renders as the empty string in its
position rather than erroring. -/
theorem c4_price_format (fs ofs : List (String × JVal)) (off : JVal)
    (c p : String)
    (hoff : jLookup fs "offers" = some off)
    (hform : off = JVal.obj ofs ∨ ∃ rest, off = JVal.arr (JVal.obj ofs :: rest)) :
    (jLookup ofs "priceCurrency" = some (JVal.str c) →
     jLookup ofs "price" = some (JVal.str p) →
      (parse_json_ld [some (JVal.obj fs)]).price = some (c ++ " " ++ p)) ∧
    (jLookup ofs "priceCurrency" = none →
     jLookup ofs "price" = some (JVal.str p) →
      (parse_json_ld [some (JVal.obj fs)]).price = some ("" ++ " " ++ p)) := by
  have hbase : (parse_json_ld [some (JVal.obj fs)]).price
      = (offersPrice (JVal.obj fs)).or none := by
    have h1 : parse_json_ld [some (JVal.obj fs)]
        = applyBlock (JVal.obj fs) emptyRecord := rfl
    rw [h1, applyBlock_price]
    rfl
  constructor
  · intro hc hp
    rw [hbase, offersPrice_obj_hit hoff hform, hc, hp]
    rfl
  · intro hc hp
    rw [hbase, offersPrice_obj_hit hoff hform, hc, hp]
    rfl

/-- Witness for C4 at a concrete block. -/
theorem c4_price_format_witness :
    (parse_json_ld [some (JVal.obj c4Fields)]).price = some ("GBP" ++ " " ++ "24.99") :=
  (c4_price_format c4Fields c4OfferFields (JVal.obj c4OfferFields) "GBP" "24.99"
    rfl (Or.inl rfl)).1 rfl rfl

theorem length_pos_iff_ne_empty (s : String) : 0 < s.length ↔ s ≠ "" := by
  unfold String.length
  rw [List.length_pos]
  constructor
  · intro h he
    exact h (congrArg String.data he)
  · intro h hd
    exact h (String.ext hd)

theorem healingPhase_executed (pg : Page) (intent subject : String)
    (ex : List Strategy) (orc : Oracle) :
    (healingPhase pg intent subject ex orc).executed
      = ex ++ [Strategy.selector, Strategy.textFallback] := by
  unfold healingPhase
  cases hsel : select_validate
      (orc.genSelector
        (smart_clean_html pg.bodyText pg.textStructure (some subject)).1 intent)
      pg.query <;>
    cases hdr : orc.directExtract
        (sliceL (smart_clean_html pg.bodyText pg.textStructure (some subject)).2 0 4000)
        intent <;>
      rfl

theorem healingPhase_strategies (pg : Page) (intent subject : String)
    (ex : List Strategy) (orc : Oracle) :
    ∀ pr ∈ (healingPhase pg intent subject ex orc).successes,
      pr.1 = Strategy.selector ∨ pr.1 = Strategy.textFallback := by
  unfold healingPhase
  cases hsel : select_validate
      (orc.genSelector
        (smart_clean_html pg.bodyText pg.textStructure (some subject)).1 intent)
      pg.query <;>
    cases hdr : orc.directExtract
        (sliceL (smart_clean_html pg.bodyText pg.textStructure (some subject)).2 0 4000)
        intent <;>
      simp

/-- Claim C5 (confirmed): the selector stage succeeds exactly when the
DOM query returns a first match whose stripped text is non-empty; a
query error (including a null candidate selector) or an empty match
rejects the candidate without aborting — the healing phase still runs
the text-fallback stage, and every success it can then display comes
from the text fallback. -/
theorem c5_selector_stage (s : String) (q : String → Except Unit (Option Element))
    (t : String) (pg : Page) (intent subject : String) (ex : List Strategy)
    (orc : Oracle) :
    (select_validate (some s) q = some t ↔
      ∃ e, q s = Except.ok (some e) ∧ e.textStrip = t ∧ t ≠ "") ∧
    select_validate none q = none ∧
    (select_validate (orc.genSelector
        (smart_clean_html pg.bodyText pg.textStructure (some subject)).1 intent)
        pg.query = none →
      (healingPhase pg intent subject ex orc).executed
        = ex ++ [Strategy.selector, Strategy.textFallback] ∧
      ∀ pr ∈ (healingPhase pg intent subject ex orc).successes,
        pr.1 = Strategy.textFallback) := by
  refine ⟨?_, rfl, ?_⟩
  · simp only [select_validate]
    cases hq : q s with
    | error u => simp [hq]
    | ok oe =>
      cases oe with
      | none => simp [hq]
      | some e =>
        dsimp only
        by_cases hl : e.textStrip.length > 0
        · rw [if_pos hl]
          simp only [Option.some.injEq, Except.ok.injEq]
          constructor
          · intro ht
            exact ⟨e, rfl, ht, by
              rw [← ht]
              exact (length_pos_iff_ne_empty _).1 hl⟩
          · rintro ⟨e2, he2, ht, hne⟩
            rw [he2]
            exact ht
        · rw [if_neg hl]
          simp only [Option.some.injEq, Except.ok.injEq]
          constructor
          · intro h
            exact absurd h (by simp)
          · rintro ⟨e2, he2, ht, hne⟩
            rw [← he2] at ht
            rw [← ht] at hne
            exact absurd ((length_pos_iff_ne_empty _).2 hne) hl
  · intro h
    refine ⟨healingPhase_executed pg intent subject ex orc, ?_⟩
    unfold healingPhase
    rw [h]
    cases hdr : orc.directExtract
        (sliceL (smart_clean_html pg.bodyText pg.textStructure (some subject)).2 0 4000)
        intent <;>
      simp

def c5Query : String → Except Unit (Option Element) :=
  fun s => if s = "h1" then Except.ok (some ⟨"Hi"⟩) else Except.ok none

def noOracle : Oracle := ⟨fun _ _ => none, fun _ _ => none⟩

def emptyPage : Page := ⟨[], "", "", c5Query⟩

/-- Witness for C5 at a concrete query. -/
theorem c5_selector_stage_witness :
    select_validate (some "h1") c5Query = some "Hi" :=
  (c5_selector_stage "h1" c5Query "Hi" emptyPage "" "" [] noOracle).1.mpr
    ⟨⟨"Hi"⟩, rfl, rfl, by decide⟩

def c1DescPage : Page :=
  ⟨[some (JVal.obj [("description", JVal.str "Nice")])], "", "", c5Query⟩

/-- Counterexample to claim C1: with Intent "Extract the desc" the
Subject token "desc" is a substring of the record key name
"description" and that field is present, so the claim demands a
structured-data success; the pipeline instead displays no success at
all (the source's gate only tests whether the literal string "price"
occurs inside the Subject token). -/
theorem c1_counterexample :
    isSubstr (extract_subject "Extract the desc") "description" = true ∧
    (parse_json_ld c1DescPage.scripts).description.isSome = true ∧
    structured_hit_spec (extract_subject "Extract the desc")
      (parse_json_ld c1DescPage.scripts) = true ∧
    (runPipeline c1DescPage "Extract the desc" false noOracle).successes = [] := by
  refine ⟨by rfl, by rfl, by rfl, by rfl⟩

/-- Claim C1 as amended: a structured-data success occurs in a run if
and only if the gate the source implements holds — the literal string
"price" occurs as a substring of the Subject token and the record's
price field is present; so a Subject token that merely matches another
key name never triggers a structured-data success.  When the gate
holds, the run displays exactly the price field's value and terminates
with neither the selector stage nor the text fallback executing. -/
theorem c1_amended (pg : Page) (intent : String) (sb : Bool) (orc : Oracle) :
    ((∃ v, (Strategy.structuredData, v) ∈ (runPipeline pg intent sb orc).successes) ↔
      isSubstr "price" (extract_subject intent) = true ∧
        ((parse_json_ld pg.scripts).price).isSome = true) ∧
    (∀ v, isSubstr "price" (extract_subject intent) = true →
      (parse_json_ld pg.scripts).price = some v →
      (runPipeline pg intent sb orc).successes = [(Strategy.structuredData, v)] ∧
      Strategy.selector ∉ (runPipeline pg intent sb orc).executed ∧
      Strategy.textFallback ∉ (runPipeline pg intent sb orc).executed) := by
  have hrunT : ∀ v, (parse_json_ld pg.scripts).price = some v →
      isSubstr "price" (extract_subject intent) = true →
      runPipeline pg intent sb orc
        = ⟨(if sb then [Strategy.cache] else []) ++ [Strategy.structuredData],
           [(Strategy.structuredData, v)]⟩ := by
    intro v h2 h1
    unfold runPipeline
    rw [h2]
    exact if_pos h1
  have hrunH : ((parse_json_ld pg.scripts).price = none ∨
      ∃ v, (parse_json_ld pg.scripts).price = some v ∧
        isSubstr "price" (extract_subject intent) = false) →
      runPipeline pg intent sb orc
        = healingPhase pg intent (extract_subject intent)
            ((if sb then [Strategy.cache] else []) ++ [Strategy.structuredData]) orc := by
    rintro (h | ⟨v, h, hg⟩)
    · unfold runPipeline
      rw [h]
    · unfold runPipeline
      rw [h]
      exact if_neg (by simp [hg])
  constructor
  · cases hp : (parse_json_ld pg.scripts).price with
    | some v =>
      cases hg : isSubstr "price" (extract_subject intent) with
      | true =>
        rw [hrunT v hp hg]
        constructor
        · intro _
          exact ⟨rfl, rfl⟩
        · intro _
          exact ⟨v, by simp⟩
      | false =>
        rw [hrunH (Or.inr ⟨v, hp, hg⟩)]
        constructor
        · rintro ⟨w, hw⟩
          rcases healingPhase_strategies pg intent (extract_subject intent) _ orc
              _ hw with h | h <;> simp at h
        · rintro ⟨h1, _⟩
          exact absurd h1 (by simp)
    | none =>
      rw [hrunH (Or.inl hp)]
      constructor
      · rintro ⟨w, hw⟩
        rcases healingPhase_strategies pg intent (extract_subject intent) _ orc
            _ hw with h | h <;> simp at h
      · rintro ⟨_, h2⟩
        exact absurd h2 (by simp)
  · intro v h1 h2
    have hrun := hrunT v h2 h1
    have he : (runPipeline pg intent sb orc).executed
        = (if sb then [Strategy.cache] else []) ++ [Strategy.structuredData] := by
      rw [hrun]
    refine ⟨by rw [hrun], ?_, ?_⟩ <;>
      · rw [he]
        cases sb <;> decide

def c1PricePage : Page :=
  ⟨[some (JVal.obj
      [("offers", JVal.obj
        [("priceCurrency", JVal.str "GBP"), ("price", JVal.str "5")])])],
   "", "", c5Query⟩

/-- Witness for the amended C1 at a concrete run. -/
theorem c1_amended_witness :
    (runPipeline c1PricePage "Extract the price" true noOracle).successes
      = [(Strategy.structuredData, "GBP 5")] :=
  ((c1_amended c1PricePage "Extract the price" true noOracle).2 "GBP 5"
    (by decide) (by rfl)).1

def c3Page : Page :=
  ⟨[], "<h1>Hello</h1>", "Hello World text",
   fun s => if s = "h1" then Except.ok (some ⟨"Hello"⟩) else Except.ok none⟩

def c3Oracle : Oracle := ⟨fun _ _ => some "h1", fun _ _ => some "World"⟩

/-- Claim C3 (code bug): a run in which the selector stage succeeds
(the query matches an element with non-empty text "Hello" and the
success is displayed) nevertheless continues into the text-fallback
stage, which executes and displays a second success "World" — the
`st.stop()` of the selector branch is raised inside the bare
`try/except`, which swallows it.  This contradicts the claimed
short-circuit ("once any stage yields Success, no later stage
executes"). -/
theorem c3_stop_swallowed :
    runPipeline c3Page "Extract the title" true c3Oracle
      = ⟨[Strategy.cache, Strategy.structuredData, Strategy.selector,
          Strategy.textFallback],
         [(Strategy.selector, "Hello"), (Strategy.textFallback, "World")]⟩ := by
  rfl

/-- Counterexample to claim C6: a URL whose host is `example.org` (not
in the bot-detection list) but whose path contains `nike.com` is sent
to the stealth fetch, because the source tests the configured domains
as substrings of the whole URL, not of its host. -/
theorem c6_counterexample :
    fetch_decision "http://example.org/nike.com" true = FetchMode.stealth ∧
    hostOf "http://example.org/nike.com" = "example.org" ∧
    (ANTI_BOT_SITES.any fun x =>
      isSubstr x (hostOf "http://example.org/nike.com")) = false ∧
    fetch_decision_spec "http://example.org/nike.com" true
      = FetchMode.direct USER_AGENT 10 := by
  refine ⟨by rfl, by rfl, by rfl, by rfl⟩

/-- Claim C6 as amended: the stealth fetch is used exactly when some
configured bot-detection domain string occurs as a substring of the
whole URL and the stealth backend is available; in every other case a
single direct fetch with the desktop user-agent and the 10-second
timeout is chosen. -/
theorem c6_amended (url : String) (avail : Bool) :
    (fetch_decision url avail = FetchMode.stealth ↔
      (ANTI_BOT_SITES.any fun x => isSubstr x url) = true ∧ avail = true) ∧
    (fetch_decision url avail ≠ FetchMode.stealth →
      fetch_decision url avail = FetchMode.direct USER_AGENT 10) := by
  unfold fetch_decision
  by_cases h : ((ANTI_BOT_SITES.any fun x => isSubstr x url) && avail) = true
  · rw [if_pos h]
    rw [Bool.and_eq_true] at h
    constructor
    · exact ⟨fun _ => h, fun _ => rfl⟩
    · intro hne
      exact absurd rfl hne
  · rw [if_neg h]
    constructor
    · constructor
      · intro he
        exact absurd he (by simp)
      · rintro ⟨h1, h2⟩
        exact absurd (by rw [Bool.and_eq_true]; exact ⟨h1, h2⟩) h
    · intro _
      rfl

/-- Witness for the amended C6: protected domain with the stealth
backend unavailable falls back to the direct fetch. -/
theorem c6_amended_witness :
    fetch_decision "https://www.nike.com/shoes" false
      = FetchMode.direct USER_AGENT 10 :=
  (c6_amended "https://www.nike.com/shoes" false).2 (by decide)

/-- Claim C9 (confirmed): whatever the outcome of navigation/capture,
the stealth fetch's event trace ends with the browser quit event (the
`finally` runs on every exit path), and the body's outcome — the page
source or the raised error — is then propagated unchanged. -/
theorem c9_browser_quit (nav : Except String String) :
    BrowserEvent.quit ∈ (stealth_fetch nav).2 ∧
    (stealth_fetch nav).2.getLast? = some BrowserEvent.quit ∧
    (stealth_fetch nav).1 = nav := by
  cases nav <;>
    exact ⟨by simp [stealth_fetch, tryFinallyQuit],
           by simp [stealth_fetch, tryFinallyQuit], rfl⟩

end Domfie


